import Mathlib

/-!
Shallow embedding of `src/include/cppcodegen.h` (namespace `cppcodegen`):
the `Indent` value object and the three node kinds `Snippet`, `Block`,
`Class`, with their append, render and re-indent operations.

Modelling choices:
* Text is `List Char`; `str` converts a Lean string literal.
* C++ methods that mutate `this` become functions returning the new value.
* `std::getline`-based line splitting (`Snippet::Add<T>`) is `splitLines`.
* The `std::unordered_map<AccessSpecifier, std::vector<Snippet>>` inside
  `Class` is an association list; `.at` becomes the `Option`-valued
  `alookup` (a missing key, which would throw in C++, yields `none`), and
  `operator[]` followed by `emplace_back` becomes `aupdateAppend`.
  Consequently `Class.Out` is `Option`-valued: `none` models the throw.
* `Indent::indent_string_` is precomputed in the C++ constructor from
  `size_` and `character_` and never mutated afterwards, so it is modelled
  as the derived function `Indent.indentString`.
-/

namespace cppcodegen

/-- Constant `kDefaultIndentSize` from the source. -/
def kDefaultIndentSize : Nat := 2

/-- Conversion of a Lean string literal into the character-list text representation. -/
def str (s : String) : List Char := s.data

/-- Model of `enum class Type` from the source. -/
inductive Ty where
  | kLine
  | kSystemInclude
  | kLocalInclude
  | kCodeBlock
  | kDefinition
  | kNamespace
deriving DecidableEq

/-- Model of `enum class AccessSpecifier` from the source. -/
inductive AccessSpecifier where
  | kPublic
  | kProtected
  | kPrivate
deriving DecidableEq

/-- Model of `struct Indent`: fields `level_`, `size_`, `character_`. -/
structure Indent where
  level : Nat
  size : Nat
  character : Char
deriving DecidableEq

/-- Field `indent_string_`: `character_` repeated `size_` times (built in the
constructor; `size_` and `character_` never change afterwards). -/
def Indent.indentString (i : Indent) : List Char :=
  List.replicate i.size i.character

/-- Method `Indent::Indenting`: `indent_string_` repeated `level_` times. -/
def Indent.Indenting (i : Indent) : List Char :=
  (List.replicate i.level i.indentString).flatten

/-- Model of `class Snippet`: fields `indent_`, `header_`, `footer_`, `type_`,
`lines_`. -/
structure Snippet where
  indent : Indent
  header : List Char
  footer : List Char
  type : Ty
  lines : List (List Char)
deriving DecidableEq

/-- Constructor `Snippet(LineType, indent)`: empty header and footer. -/
def Snippet.mkLine (indent : Indent) : Snippet :=
  ⟨indent, [], [], Ty.kLine, []⟩

/-- Constructor `Snippet(SystemIncludeType, indent)`. -/
def Snippet.mkSystemInclude (indent : Indent) : Snippet :=
  ⟨indent, str ("#include <"), str (">"), Ty.kSystemInclude, []⟩

/-- Constructor `Snippet(LocalIncludeType, base_dir_path, indent)`. -/
def Snippet.mkLocalInclude (baseDirPath : List Char) (indent : Indent) : Snippet :=
  ⟨indent, str ("#include \"") ++ baseDirPath, str ("\""), Ty.kLocalInclude, []⟩

/-- Method `Snippet::Out`: each stored line prefixed with `Indenting()` and
terminated with a newline, concatenated in order. -/
def Snippet.Out (s : Snippet) : List Char :=
  (s.lines.map (fun l => s.indent.Indenting ++ l ++ str ("\n"))).flatten

/-- Method `Snippet::Add(const std::string &line)`: stores `header_ + line + footer_`. -/
def Snippet.AddLine (s : Snippet) (line : List Char) : Snippet :=
  { s with lines := s.lines ++ [s.header ++ line ++ s.footer] }

/-- The line splitting performed by `std::getline` in `Snippet::Add<T>`:
each call reads up to the next newline (consuming it) or to the end of the
input; at the end of the input with nothing read, no further line is
produced. -/
def splitLines : List Char → List (List Char)
  | [] => []
  | c :: cs =>
    if c = '\n' then [] :: splitLines cs
    else
      match splitLines cs with
      | [] => [[c]]
      | l :: ls => (c :: l) :: ls

/-- Method `Snippet::Add<T>(const T &any)`: splits `any.Out()` into lines with
`std::getline` and appends each resulting line verbatim (no header/footer).
The parameter is the other node's rendered output `any.Out()`. -/
def Snippet.AddNode (s : Snippet) (out : List Char) : Snippet :=
  { s with lines := s.lines ++ splitLines out }

/-- Method `Snippet::Add(const std::vector<std::string> &lines)`: `Add` on each
element in order. -/
def Snippet.AddLines (s : Snippet) (ls : List (List Char)) : Snippet :=
  ls.foldl Snippet.AddLine s

/-- Method `Snippet::IncrementIndent(level)`: `indent_.level_ += level`. -/
def Snippet.IncrementIndent (s : Snippet) (k : Nat) : Snippet :=
  { s with indent := { s.indent with level := s.indent.level + k } }

/-- Model of `class Block`: fields `indent_`, `header_`, `footer_`, `type_`,
`snippets_`. -/
structure Block where
  indent : Indent
  header : List Char
  footer : List Char
  type : Ty
  snippets : List Snippet
deriving DecidableEq

/-- Constructor `Block(CodeBlockType, indent)`. -/
def Block.mkCodeBlock (indent : Indent) : Block :=
  ⟨indent, str ("\x7b\n"), str ("\x7d\n"), Ty.kCodeBlock, []⟩

/-- Constructor `Block(DefinitionType, declaration, indent)`. -/
def Block.mkDefinition (declaration : List Char) (indent : Indent) : Block :=
  ⟨indent, declaration ++ str (" \x7b\n"), str ("\x7d\n"), Ty.kDefinition, []⟩

/-- Constructor `Block(NamespaceType, name, indent)`. -/
def Block.mkNamespace (name : List Char) (indent : Indent) : Block :=
  ⟨indent, str ("namespace ") ++ name ++ str (" \x7b\n"), str ("\x7d\n"), Ty.kNamespace, []⟩

/-- Method `Block::Out`: `Indenting() + header_`, then each child snippet's `Out()`
in order, then `Indenting() + footer_`. -/
def Block.Out (b : Block) : List Char :=
  b.indent.Indenting ++ b.header ++ (b.snippets.map Snippet.Out).flatten
    ++ b.indent.Indenting ++ b.footer

/-- Method `Block::Add<T>` instantiated at `std::string`: a fresh line-type
`Snippet` at `Indent(indent_.level_ + 1, indent_.size_)` (default space
fill), the text added to it, the snippet appended to `snippets_`. -/
def Block.AddLine (b : Block) (line : List Char) : Block :=
  { b with snippets :=
      b.snippets ++ [(Snippet.mkLine ⟨b.indent.level + 1, b.indent.size, ' '⟩).AddLine line] }

/-- Method `Block::Add<T>` at a node type: the fresh wrapping snippet absorbs
the node's rendered output `any.Out()` via `Snippet::Add<T>`. -/
def Block.AddNode (b : Block) (out : List Char) : Block :=
  { b with snippets :=
      b.snippets ++ [(Snippet.mkLine ⟨b.indent.level + 1, b.indent.size, ' '⟩).AddNode out] }

/-- Method `Block::Add(const std::vector<std::string> &lines)`: `Add` on each
element in order. -/
def Block.AddLines (b : Block) (ls : List (List Char)) : Block :=
  ls.foldl Block.AddLine b

/-- Method `Block::IncrementIndent(level)`: own level `+= level`, then
`IncrementIndent(level)` on every child snippet. -/
def Block.IncrementIndent (b : Block) (k : Nat) : Block :=
  { b with
      indent := { b.indent with level := b.indent.level + k }
      snippets := b.snippets.map (Snippet.IncrementIndent · k) }

/-- The bucket map of `Class`:
`std::unordered_map<AccessSpecifier, std::vector<Snippet>>` as an
association list. -/
abbrev Buckets := List (AccessSpecifier × List Snippet)

/-- Lookup `std::unordered_map::at`: `none` models the `std::out_of_range` throw on
a missing key. -/
def alookup : Buckets → AccessSpecifier → Option (List Snippet)
  | [], _ => none
  | (k, v) :: rest, a => if k = a then some v else alookup rest a

/-- Update `snippets_[access].emplace_back(snippet)`: `operator[]` inserts an empty
vector when the key is missing, then the snippet is appended. -/
def aupdateAppend : Buckets → AccessSpecifier → Snippet → Buckets
  | [], a, s => [(a, [s])]
  | (k, v) :: rest, a, s =>
    if k = a then (k, v ++ [s]) :: rest else (k, v) :: aupdateAppend rest a s

/-- Model of `class Class`: fields `indent_`, `name_`, `header_`, `footer_`, `type_`,
`snippets_`. -/
structure Class where
  indent : Indent
  name : List Char
  header : List Char
  footer : List Char
  type : Ty
  snippets : Buckets
deriving DecidableEq

/-- Constructor `Class(name, indent)`: header `" {\n"`, footer `"};\n"`, the map
initialised with all three access-specifier keys mapped to empty vectors
(in the initializer's order private, public, protected). -/
def Class.make (name : List Char) (indent : Indent) : Class :=
  ⟨indent, name, str (" \x7b\n"), str ("\x7d;\n"), Ty.kCodeBlock,
    [(AccessSpecifier.kPrivate, []), (AccessSpecifier.kPublic, []),
      (AccessSpecifier.kProtected, [])]⟩

/-- Method `Class::Out`: `Indenting() + "class " + name_ + header_`, then each of
the three buckets in the fixed order public, protected, private — looked up
with `.at`, label emitted only when the bucket is non-empty — then
`Indenting() + footer_`. `none` models a throwing `.at` lookup. -/
def Class.Out (c : Class) : Option (List Char) :=
  match alookup c.snippets AccessSpecifier.kPublic,
      alookup c.snippets AccessSpecifier.kProtected,
      alookup c.snippets AccessSpecifier.kPrivate with
  | some pub, some prot, some priv =>
    some (c.indent.Indenting ++ str ("class ") ++ c.name ++ c.header
      ++ (if pub = [] then []
          else c.indent.Indenting ++ str (" public:\n") ++ (pub.map Snippet.Out).flatten)
      ++ (if prot = [] then []
          else c.indent.Indenting ++ str (" protected:\n") ++ (prot.map Snippet.Out).flatten)
      ++ (if priv = [] then []
          else c.indent.Indenting ++ str (" private:\n") ++ (priv.map Snippet.Out).flatten)
      ++ c.indent.Indenting ++ c.footer)
  | _, _, _ => none

/-- Method `Class::Add<T>` at `std::string`: a fresh line-type `Snippet` at
`Indent(indent_.level_ + 1, indent_.size_)` (default space fill), the text
added to it, the snippet appended to the bucket named by the access
specifier. -/
def Class.AddLine (c : Class) (line : List Char) (a : AccessSpecifier) : Class :=
  { c with snippets :=
      (aupdateAppend c.snippets a
        ((Snippet.mkLine ⟨c.indent.level + 1, c.indent.size, ' '⟩).AddLine line)) }

/-- Method `Class::Add<T>` at a node type: the fresh wrapping snippet absorbs
the node's rendered output. -/
def Class.AddNode (c : Class) (out : List Char) (a : AccessSpecifier) : Class :=
  { c with snippets :=
      (aupdateAppend c.snippets a
        ((Snippet.mkLine ⟨c.indent.level + 1, c.indent.size, ' '⟩).AddNode out)) }

/-- Method `Class::Add(const std::vector<std::string> &lines, access_specifier)`:
`Add` on each element in order, into the same bucket. -/
def Class.AddLines (c : Class) (ls : List (List Char)) (a : AccessSpecifier) : Class :=
  ls.foldl (fun acc l => acc.AddLine l a) c

/-- Method `Class::IncrementIndent(level)`: own level `+= level`, then
`IncrementIndent(level)` on every snippet of every bucket. -/
def Class.IncrementIndent (c : Class) (k : Nat) : Class :=
  { c with
      indent := { c.indent with level := c.indent.level + k }
      snippets := c.snippets.map (fun p => (p.1, p.2.map (Snippet.IncrementIndent · k))) }

/-- A renderable node, as accepted by the template `Add<T>` members. -/
inductive Node where
  | snip (s : Snippet)
  | block (b : Block)
  | cls (c : Class)
deriving DecidableEq

/-- Call `any.Out()` for a node of any of the three kinds. -/
def Node.Out : Node → Option (List Char)
  | Node.snip s => some s.Out
  | Node.block b => some b.Out
  | Node.cls c => c.Out

/-- Method `Block::Add<T>` at a node type, with the call `any.Out()` spelled out:
fails (C++: propagates the throw) exactly when the node's own render fails. -/
def Block.AddAny (b : Block) (n : Node) : Option Block :=
  n.Out.map b.AddNode

/-- Method `Class::Add<T>` at a node type, with the call `any.Out()` spelled out. -/
def Class.AddAny (c : Class) (n : Node) (a : AccessSpecifier) : Option Class :=
  n.Out.map (fun o => c.AddNode o a)

/-- The `Block` operations a caller can perform after construction, for
stating invariants over arbitrary call sequences. `addNodeText` carries the
added node's rendered output. -/
inductive BlockOp where
  | addLine (l : List Char)
  | addLines (ls : List (List Char))
  | addNodeText (out : List Char)
  | incr (k : Nat)

/-- Apply one `Block` operation. -/
def Block.applyOp (b : Block) : BlockOp → Block
  | BlockOp.addLine l => b.AddLine l
  | BlockOp.addLines ls => b.AddLines ls
  | BlockOp.addNodeText out => b.AddNode out
  | BlockOp.incr k => b.IncrementIndent k

/-- Apply a sequence of `Block` operations in order. -/
def Block.applyOps (b : Block) (ops : List BlockOp) : Block :=
  ops.foldl Block.applyOp b

/-- The `Class` operations a caller can perform after construction. -/
inductive ClassOp where
  | addLine (l : List Char) (a : AccessSpecifier)
  | addLines (ls : List (List Char)) (a : AccessSpecifier)
  | addNodeText (out : List Char) (a : AccessSpecifier)
  | incr (k : Nat)

/-- Apply one `Class` operation. -/
def Class.applyOp (c : Class) : ClassOp → Class
  | ClassOp.addLine l a => c.AddLine l a
  | ClassOp.addLines ls a => c.AddLines ls a
  | ClassOp.addNodeText out a => c.AddNode out a
  | ClassOp.incr k => c.IncrementIndent k

/-- Apply a sequence of `Class` operations in order. -/
def Class.applyOps (c : Class) (ops : List ClassOp) : Class :=
  ops.foldl Class.applyOp c


/-! Helper lemmas. -/

/-- Helper: flattening `n` copies of `m` copies of a character gives
`n * m` copies. -/
lemma replicate_replicate_flatten (n m : Nat) (ch : Char) :
    (List.replicate n (List.replicate m ch)).flatten = List.replicate (n * m) ch := by
  induction n with
  | zero => simp
  | succ k ih =>
    rw [List.replicate_succ, List.flatten_cons, ih, Nat.succ_mul,
      Nat.add_comm (k * m) m, List.replicate_add]

/-- Helper: the indent prefix is the fill character repeated
`level * size` times. -/
lemma indenting_eq_replicate (i : Indent) :
    i.Indenting = List.replicate (i.level * i.size) i.character :=
  replicate_replicate_flatten i.level i.size i.character

/-- Helper: newline-terminated lines joined back into a flat text. -/
def joinLines (ls : List (List Char)) : List Char :=
  (ls.map (fun l => l ++ ['\n'])).flatten

/-- Helper: splitting a text that starts with a newline-free line and its
terminating newline yields that line first. -/
lemma splitLines_append_newline (l rest : List Char) (h : '\n' ∉ l) :
    splitLines (l ++ '\n' :: rest) = l :: splitLines rest := by
  induction l with
  | nil => simp [splitLines]
  | cons c cs ih =>
    have hc : ¬(c = '\n') := by
      intro e
      exact h (by simp [e])
    have hcs : '\n' ∉ cs := by
      intro e
      exact h (by simp [e])
    simp [splitLines, hc, ih hcs]

/-- Helper: `splitLines` recovers the lines of a newline-joined text when no
line contains a newline itself. -/
lemma splitLines_joinLines (ls : List (List Char)) (h : ∀ l ∈ ls, '\n' ∉ l) :
    splitLines (joinLines ls) = ls := by
  induction ls with
  | nil => simp [joinLines, splitLines]
  | cons l rest ih =>
    have h1 : '\n' ∉ l := h l (by simp)
    have h2 : ∀ x ∈ rest, '\n' ∉ x := fun x hx => h x (by simp [hx])
    have hj : joinLines (l :: rest) = l ++ '\n' :: joinLines rest := by
      simp [joinLines, List.append_assoc]
    rw [hj, splitLines_append_newline l _ h1, ih h2]

/-! Claim theorems. -/

/-- Claim C8: for every non-negative level and positive unit width,
`Indenting()` returns a string of length exactly `level * unit_width`
composed solely of the fill character (stated as an equality with
`List.replicate`); it is a pure total function of the `Indent` value. -/
theorem claim_C8_indenting_length (lvl sz : Nat) (ch : Char) (hpos : 0 < sz) :
    (Indent.Indenting ⟨lvl, sz, ch⟩).length = lvl * sz
    ∧ Indent.Indenting ⟨lvl, sz, ch⟩ = List.replicate (lvl * sz) ch := by
  refine ⟨?_, indenting_eq_replicate ⟨lvl, sz, ch⟩⟩
  rw [indenting_eq_replicate]
  simp

/-- Witness for C8 at level 3, unit width 2, space fill. -/
theorem claim_C8_witness :
    (Indent.Indenting ⟨3, 2, ' '⟩).length = 3 * 2
    ∧ Indent.Indenting ⟨3, 2, ' '⟩ = List.replicate (3 * 2) ' ' :=
  claim_C8_indenting_length 3 2 ' ' (by decide)

/-- Claim C4: `Snippet::Out` is the concatenation, in append order, of
indent prefix + line + newline over the stored lines; an empty snippet
renders to the empty string; adding a line appends exactly
`Indenting() + header + x + footer + "\n"` to the render, so a snippet with
header `H` and footer `F` renders after a single `Add("x")` to
`Indenting() + H + "x" + F + "\n"`. -/
theorem claim_C4_snippet_render (s t : Snippet) (x : List Char) (ht : t.lines = []) :
    s.Out = (s.lines.map (fun l => s.indent.Indenting ++ l ++ str ("\n"))).flatten
    ∧ (s.AddLine x).Out
        = s.Out ++ (s.indent.Indenting ++ (s.header ++ x ++ s.footer) ++ str ("\n"))
    ∧ t.Out = []
    ∧ (t.AddLine x).Out = t.indent.Indenting ++ (t.header ++ x ++ t.footer) ++ str ("\n") := by
  refine ⟨rfl, ?_, ?_, ?_⟩
  · simp [Snippet.Out, Snippet.AddLine, List.append_assoc]
  · simp [Snippet.Out, ht]
  · simp [Snippet.Out, Snippet.AddLine, ht, List.append_assoc]

/-- Witness for C4: a one-line plain snippet and an empty system-include
snippet with `x = "vector"`. -/
theorem claim_C4_witness :
    ((Snippet.mkLine ⟨1, 2, ' '⟩).AddLine (str ("int a;"))).Out
      = (((Snippet.mkLine ⟨1, 2, ' '⟩).AddLine (str ("int a;"))).lines.map
          (fun l =>
            ((Snippet.mkLine ⟨1, 2, ' '⟩).AddLine (str ("int a;"))).indent.Indenting
              ++ l ++ str ("\n"))).flatten
    ∧ (((Snippet.mkLine ⟨1, 2, ' '⟩).AddLine (str ("int a;"))).AddLine
          (str ("vector"))).Out
        = ((Snippet.mkLine ⟨1, 2, ' '⟩).AddLine (str ("int a;"))).Out
          ++ (((Snippet.mkLine ⟨1, 2, ' '⟩).AddLine (str ("int a;"))).indent.Indenting
            ++ (((Snippet.mkLine ⟨1, 2, ' '⟩).AddLine (str ("int a;"))).header
              ++ str ("vector")
              ++ ((Snippet.mkLine ⟨1, 2, ' '⟩).AddLine (str ("int a;"))).footer)
            ++ str ("\n"))
    ∧ (Snippet.mkSystemInclude ⟨0, 2, ' '⟩).Out = []
    ∧ ((Snippet.mkSystemInclude ⟨0, 2, ' '⟩).AddLine (str ("vector"))).Out
        = (Snippet.mkSystemInclude ⟨0, 2, ' '⟩).indent.Indenting
          ++ ((Snippet.mkSystemInclude ⟨0, 2, ' '⟩).header
            ++ str ("vector")
            ++ (Snippet.mkSystemInclude ⟨0, 2, ' '⟩).footer)
          ++ str ("\n") :=
  claim_C4_snippet_render ((Snippet.mkLine ⟨1, 2, ' '⟩).AddLine (str ("int a;")))
    (Snippet.mkSystemInclude ⟨0, 2, ' '⟩) (str ("vector")) rfl

/-- Claim C5: `Block::Out` is the indent prefix plus the header, followed by
each child snippet's render in append order, followed by the indent prefix
plus the footer; with no children it is exactly
`Indenting() + header + Indenting() + footer`. -/
theorem claim_C5_block_render (b e : Block) (he : e.snippets = []) :
    b.Out = b.indent.Indenting ++ b.header ++ (b.snippets.map Snippet.Out).flatten
        ++ b.indent.Indenting ++ b.footer
    ∧ e.Out = e.indent.Indenting ++ e.header ++ (e.indent.Indenting ++ e.footer) := by
  refine ⟨rfl, ?_⟩
  simp [Block.Out, he, List.append_assoc]

/-- Witness for C5: a code block with one line, and an empty namespace block
at level 1. -/
theorem claim_C5_witness :
    ((Block.mkCodeBlock ⟨0, 2, ' '⟩).AddLine (str ("int a;"))).Out
      = ((Block.mkCodeBlock ⟨0, 2, ' '⟩).AddLine (str ("int a;"))).indent.Indenting
        ++ ((Block.mkCodeBlock ⟨0, 2, ' '⟩).AddLine (str ("int a;"))).header
        ++ (((Block.mkCodeBlock ⟨0, 2, ' '⟩).AddLine (str ("int a;"))).snippets.map
            Snippet.Out).flatten
        ++ ((Block.mkCodeBlock ⟨0, 2, ' '⟩).AddLine (str ("int a;"))).indent.Indenting
        ++ ((Block.mkCodeBlock ⟨0, 2, ' '⟩).AddLine (str ("int a;"))).footer
    ∧ (Block.mkNamespace (str ("n")) ⟨1, 2, ' '⟩).Out
      = (Block.mkNamespace (str ("n")) ⟨1, 2, ' '⟩).indent.Indenting
        ++ (Block.mkNamespace (str ("n")) ⟨1, 2, ' '⟩).header
        ++ ((Block.mkNamespace (str ("n")) ⟨1, 2, ' '⟩).indent.Indenting
          ++ (Block.mkNamespace (str ("n")) ⟨1, 2, ' '⟩).footer) :=
  claim_C5_block_render ((Block.mkCodeBlock ⟨0, 2, ' '⟩).AddLine (str ("int a;")))
    (Block.mkNamespace (str ("n")) ⟨1, 2, ' '⟩) rfl

/-- Claim C6: absorbing another node appends exactly the lines of that
node's rendered output, verbatim, with this snippet's header and footer not
applied (in particular, absorbing a text made of newline-terminated,
newline-free lines appends exactly those lines); only the literal add stores
`header + text + footer`. -/
theorem claim_C6_absorb_verbatim (s : Snippet) (x out : List Char)
    (ls : List (List Char)) (hls : ∀ l ∈ ls, '\n' ∉ l) :
    (s.AddNode out).lines = s.lines ++ splitLines out
    ∧ (s.AddNode (joinLines ls)).lines = s.lines ++ ls
    ∧ (s.AddLine x).lines = s.lines ++ [s.header ++ x ++ s.footer] := by
  refine ⟨rfl, ?_, rfl⟩
  simp [Snippet.AddNode, splitLines_joinLines ls hls]

/-- Witness for C6: a system-include snippet (non-empty header and footer)
absorbing the two-line text `"a\nb\n"`. -/
theorem claim_C6_witness :
    ((Snippet.mkSystemInclude ⟨0, 2, ' '⟩).AddNode (str ("a\nb\n"))).lines
      = (Snippet.mkSystemInclude ⟨0, 2, ' '⟩).lines ++ splitLines (str ("a\nb\n"))
    ∧ ((Snippet.mkSystemInclude ⟨0, 2, ' '⟩).AddNode
          (joinLines [str ("a"), str ("b")])).lines
        = (Snippet.mkSystemInclude ⟨0, 2, ' '⟩).lines ++ [str ("a"), str ("b")]
    ∧ ((Snippet.mkSystemInclude ⟨0, 2, ' '⟩).AddLine (str ("c"))).lines
        = (Snippet.mkSystemInclude ⟨0, 2, ' '⟩).lines
          ++ [(Snippet.mkSystemInclude ⟨0, 2, ' '⟩).header ++ str ("c")
            ++ (Snippet.mkSystemInclude ⟨0, 2, ' '⟩).footer] :=
  claim_C6_absorb_verbatim (Snippet.mkSystemInclude ⟨0, 2, ' '⟩) (str ("c"))
    (str ("a\nb\n")) [str ("a"), str ("b")] (by decide)


/-- Helper: looking up a key after `operator[]`-plus-append: the touched key
now holds its old vector (empty when the key was missing) with the snippet
appended; other keys are untouched. -/
lemma alookup_aupdateAppend (m : Buckets) (a k : AccessSpecifier) (s : Snippet) :
    alookup (aupdateAppend m a s) k =
      if k = a then some (((alookup m a).getD []) ++ [s]) else alookup m k := by
  induction m with
  | nil =>
    by_cases h : k = a
    · subst h
      simp [aupdateAppend, alookup]
    · simp [aupdateAppend, alookup, h, Ne.symm h]
  | cons p rest ih =>
    obtain ⟨pk, pv⟩ := p
    by_cases h1 : pk = a
    · subst h1
      by_cases h2 : k = pk
      · subst h2
        simp [aupdateAppend, alookup]
      · simp [aupdateAppend, alookup, h2, Ne.symm h2]
    · by_cases h2 : pk = k
      · subst h2
        simp [aupdateAppend, alookup, h1]
      · simp [aupdateAppend, alookup, h1, h2, ih]

/-- Helper: mapping a function over every bucket's vector commutes with
lookup. -/
lemma alookup_mapval (m : Buckets) (f : List Snippet → List Snippet)
    (k : AccessSpecifier) :
    alookup (m.map (fun p => (p.1, f p.2))) k = (alookup m k).map f := by
  induction m with
  | nil => simp [alookup]
  | cons p rest ih =>
    obtain ⟨pk, pv⟩ := p
    by_cases h : pk = k <;> simp [alookup, h, ih]

/-- Claim C7: snapshot-on-absorb semantics. In the state-passing embedding,
the parent obtained from an `Add` of a node is a pure value that depends on
the absorbed node only through its rendered output at the moment of the
call: two nodes with equal `Out()` are absorbed identically by a `Block`
and by a `Class`, so any later mutation of the original node (re-indenting
it, adding further content to it) cannot affect the parent's `Render()`
output, which was computed from the flattened snapshot. -/
theorem claim_C7_snapshot (b : Block) (c : Class) (a : AccessSpecifier)
    (n1 n2 : Node) (h : n1.Out = n2.Out) :
    b.AddAny n1 = b.AddAny n2 ∧ c.AddAny n1 a = c.AddAny n2 a := by
  constructor <;> simp [Block.AddAny, Class.AddAny, h]

/-- Witness for C7: a plain empty snippet and a structurally different
empty system-include snippet render identically, so a code block and a
class absorb them to equal states. -/
theorem claim_C7_witness :
    (Block.mkCodeBlock ⟨0, 2, ' '⟩).AddAny (Node.snip (Snippet.mkLine ⟨0, 2, ' '⟩))
      = (Block.mkCodeBlock ⟨0, 2, ' '⟩).AddAny
          (Node.snip (Snippet.mkSystemInclude ⟨5, 3, 'x'⟩))
    ∧ (Class.make (str ("C")) ⟨0, 2, ' '⟩).AddAny
          (Node.snip (Snippet.mkLine ⟨0, 2, ' '⟩)) AccessSpecifier.kPublic
      = (Class.make (str ("C")) ⟨0, 2, ' '⟩).AddAny
          (Node.snip (Snippet.mkSystemInclude ⟨5, 3, 'x'⟩)) AccessSpecifier.kPublic :=
  claim_C7_snapshot (Block.mkCodeBlock ⟨0, 2, ' '⟩) (Class.make (str ("C")) ⟨0, 2, ' '⟩)
    AccessSpecifier.kPublic (Node.snip (Snippet.mkLine ⟨0, 2, ' '⟩))
    (Node.snip (Snippet.mkSystemInclude ⟨5, 3, 'x'⟩)) (by decide)

/-- Claim C10: the wrapping snippet created by an `Add` on a `Block` or a
`Class` is built with `Indent(level + 1, size)` — inheriting the parent's
level plus one and its unit width but taking the constructor's default
space fill, not the parent's fill character — so even under a parent whose
fill character is not a space, the child line renders with space
indentation. -/
theorem claim_C10_child_fill (b : Block) (c : Class) (l : List Char)
    (a : AccessSpecifier)
    (hb : b.indent.character ≠ ' ') (hc : c.indent.character ≠ ' ') :
    (b.AddLine l).snippets
      = b.snippets ++ [(Snippet.mkLine ⟨b.indent.level + 1, b.indent.size, ' '⟩).AddLine l]
    ∧ ((Snippet.mkLine ⟨b.indent.level + 1, b.indent.size, ' '⟩).AddLine l).Out
        = List.replicate ((b.indent.level + 1) * b.indent.size) ' ' ++ l ++ str ("\n")
    ∧ alookup (c.AddLine l a).snippets a
        = some ((alookup c.snippets a).getD []
            ++ [(Snippet.mkLine ⟨c.indent.level + 1, c.indent.size, ' '⟩).AddLine l])
    ∧ ((Snippet.mkLine ⟨c.indent.level + 1, c.indent.size, ' '⟩).AddLine l).Out
        = List.replicate ((c.indent.level + 1) * c.indent.size) ' ' ++ l ++ str ("\n") := by
  refine ⟨rfl, ?_, ?_, ?_⟩
  · simp [Snippet.Out, Snippet.AddLine, Snippet.mkLine, indenting_eq_replicate,
      List.append_assoc]
  · simp only [Class.AddLine]
    rw [alookup_aupdateAppend]
    simp
  · simp [Snippet.Out, Snippet.AddLine, Snippet.mkLine, indenting_eq_replicate,
      List.append_assoc]

/-- Witness for C10: a code block and a class whose own indents use an
asterisk fill; the wrapping snippets still indent with spaces. -/
theorem claim_C10_witness :
    ((Block.mkCodeBlock ⟨0, 2, '*'⟩).AddLine (str ("int x;"))).snippets
      = (Block.mkCodeBlock ⟨0, 2, '*'⟩).snippets
        ++ [(Snippet.mkLine ⟨(Block.mkCodeBlock ⟨0, 2, '*'⟩).indent.level + 1,
              (Block.mkCodeBlock ⟨0, 2, '*'⟩).indent.size, ' '⟩).AddLine (str ("int x;"))]
    ∧ ((Snippet.mkLine ⟨(Block.mkCodeBlock ⟨0, 2, '*'⟩).indent.level + 1,
          (Block.mkCodeBlock ⟨0, 2, '*'⟩).indent.size, ' '⟩).AddLine (str ("int x;"))).Out
        = List.replicate (((Block.mkCodeBlock ⟨0, 2, '*'⟩).indent.level + 1)
              * (Block.mkCodeBlock ⟨0, 2, '*'⟩).indent.size) ' '
          ++ str ("int x;") ++ str ("\n")
    ∧ alookup ((Class.make (str ("C")) ⟨1, 3, '*'⟩).AddLine (str ("int x;"))
          AccessSpecifier.kProtected).snippets AccessSpecifier.kProtected
        = some ((alookup (Class.make (str ("C")) ⟨1, 3, '*'⟩).snippets
              AccessSpecifier.kProtected).getD []
            ++ [(Snippet.mkLine ⟨(Class.make (str ("C")) ⟨1, 3, '*'⟩).indent.level + 1,
                  (Class.make (str ("C")) ⟨1, 3, '*'⟩).indent.size, ' '⟩).AddLine
                (str ("int x;"))])
    ∧ ((Snippet.mkLine ⟨(Class.make (str ("C")) ⟨1, 3, '*'⟩).indent.level + 1,
          (Class.make (str ("C")) ⟨1, 3, '*'⟩).indent.size, ' '⟩).AddLine
        (str ("int x;"))).Out
        = List.replicate (((Class.make (str ("C")) ⟨1, 3, '*'⟩).indent.level + 1)
              * (Class.make (str ("C")) ⟨1, 3, '*'⟩).indent.size) ' '
          ++ str ("int x;") ++ str ("\n") :=
  claim_C10_child_fill (Block.mkCodeBlock ⟨0, 2, '*'⟩)
    (Class.make (str ("C")) ⟨1, 3, '*'⟩) (str ("int x;"))
    AccessSpecifier.kProtected (by decide) (by decide)


/-- Invariant of claim C1 for a `Block`: every child snippet's indent level
is the block's indent level plus one. -/
def Block.childOneDeeper (b : Block) : Prop :=
  ∀ s ∈ b.snippets, s.indent.level = b.indent.level + 1

/-- Invariant of claim C1 for a `Class`: every snippet of every bucket sits
one level deeper than the class. -/
def Class.childOneDeeper (c : Class) : Prop :=
  ∀ p ∈ c.snippets, ∀ s ∈ p.2, s.indent.level = c.indent.level + 1

/-- Helper: `Block::Add` of a line preserves the one-deeper invariant. -/
lemma blockInv_AddLine (b : Block) (l : List Char)
    (h : b.childOneDeeper) : (b.AddLine l).childOneDeeper := by
  intro s hs
  have hs2 : s ∈ b.snippets
      ∨ s = (Snippet.mkLine ⟨b.indent.level + 1, b.indent.size, ' '⟩).AddLine l := by
    simpa [Block.AddLine] using hs
  rcases hs2 with h1 | rfl
  · simpa [Block.AddLine] using h s h1
  · simp [Block.AddLine, Snippet.mkLine, Snippet.AddLine]

/-- Helper: `Block::Add` of a node preserves the one-deeper invariant. -/
lemma blockInv_AddNode (b : Block) (out : List Char)
    (h : b.childOneDeeper) : (b.AddNode out).childOneDeeper := by
  intro s hs
  have hs2 : s ∈ b.snippets
      ∨ s = (Snippet.mkLine ⟨b.indent.level + 1, b.indent.size, ' '⟩).AddNode out := by
    simpa [Block.AddNode] using hs
  rcases hs2 with h1 | rfl
  · simpa [Block.AddNode] using h s h1
  · simp [Block.AddNode, Snippet.mkLine, Snippet.AddNode]

/-- Helper: `Block::Add` of a vector of lines preserves the one-deeper
invariant. -/
lemma blockInv_AddLines (ls : List (List Char)) (b : Block)
    (h : b.childOneDeeper) : (b.AddLines ls).childOneDeeper := by
  induction ls generalizing b with
  | nil => exact h
  | cons l rest ih => exact ih (b.AddLine l) (blockInv_AddLine b l h)

/-- Helper: `Block::IncrementIndent` preserves the one-deeper invariant. -/
lemma blockInv_IncrementIndent (b : Block) (k : Nat)
    (h : b.childOneDeeper) : (b.IncrementIndent k).childOneDeeper := by
  intro s hs
  simp only [Block.IncrementIndent, List.mem_map] at hs
  obtain ⟨t, ht, rfl⟩ := hs
  have := h t ht
  simp [Snippet.IncrementIndent, Block.IncrementIndent, this]
  omega

/-- Helper: every single `Block` operation preserves the one-deeper
invariant. -/
lemma blockInv_applyOp (b : Block) (op : BlockOp)
    (h : b.childOneDeeper) : (b.applyOp op).childOneDeeper := by
  cases op with
  | addLine l => exact blockInv_AddLine b l h
  | addLines ls => exact blockInv_AddLines ls b h
  | addNodeText out => exact blockInv_AddNode b out h
  | incr k => exact blockInv_IncrementIndent b k h

/-- Helper: any sequence of `Block` operations preserves the one-deeper
invariant. -/
lemma blockInv_applyOps (ops : List BlockOp) (b : Block)
    (h : b.childOneDeeper) : (b.applyOps ops).childOneDeeper := by
  induction ops generalizing b with
  | nil => exact h
  | cons op rest ih => exact ih (b.applyOp op) (blockInv_applyOp b op h)

/-- Helper: a snippet of a bucket of the updated map comes from the old map
or is the newly appended snippet. -/
lemma mem_of_mem_aupdateAppend (m : Buckets) (a : AccessSpecifier) (sn : Snippet)
    (p : AccessSpecifier × List Snippet) (s : Snippet)
    (hp : p ∈ aupdateAppend m a sn) (hs : s ∈ p.2) :
    (∃ q ∈ m, s ∈ q.2) ∨ s = sn := by
  induction m with
  | nil =>
    simp [aupdateAppend] at hp
    subst hp
    right
    simpa using hs
  | cons q rest ih =>
    obtain ⟨qk, qv⟩ := q
    by_cases hq : qk = a
    · simp only [aupdateAppend, if_pos hq] at hp
      rcases List.mem_cons.mp hp with rfl | hp
      · rcases List.mem_append.mp hs with h1 | h1
        · exact Or.inl ⟨(qk, qv), by simp, h1⟩
        · exact Or.inr (by simpa using h1)
      · exact Or.inl ⟨p, by simp [hp], hs⟩
    · simp only [aupdateAppend, if_neg hq] at hp
      rcases List.mem_cons.mp hp with rfl | hp
      · exact Or.inl ⟨(qk, qv), by simp, hs⟩
      · rcases ih hp with ⟨q, hqm, hsq⟩ | h1
        · exact Or.inl ⟨q, by simp [hqm], hsq⟩
        · exact Or.inr h1

/-- Helper: `Class::Add` of a line preserves the one-deeper invariant. -/
lemma classInv_AddLine (c : Class) (l : List Char)
    (a : AccessSpecifier) (h : c.childOneDeeper) :
    (c.AddLine l a).childOneDeeper := by
  intro p hp s hs
  have hp2 : p ∈ aupdateAppend c.snippets a
      ((Snippet.mkLine ⟨c.indent.level + 1, c.indent.size, ' '⟩).AddLine l) := by
    simpa [Class.AddLine] using hp
  rcases mem_of_mem_aupdateAppend _ _ _ _ _ hp2 hs with ⟨q, hq, hsq⟩ | rfl
  · simpa [Class.AddLine] using h q hq s hsq
  · simp [Class.AddLine, Snippet.mkLine, Snippet.AddLine]

/-- Helper: `Class::Add` of a node preserves the one-deeper invariant. -/
lemma classInv_AddNode (c : Class) (out : List Char)
    (a : AccessSpecifier) (h : c.childOneDeeper) :
    (c.AddNode out a).childOneDeeper := by
  intro p hp s hs
  have hp2 : p ∈ aupdateAppend c.snippets a
      ((Snippet.mkLine ⟨c.indent.level + 1, c.indent.size, ' '⟩).AddNode out) := by
    simpa [Class.AddNode] using hp
  rcases mem_of_mem_aupdateAppend _ _ _ _ _ hp2 hs with ⟨q, hq, hsq⟩ | rfl
  · simpa [Class.AddNode] using h q hq s hsq
  · simp [Class.AddNode, Snippet.mkLine, Snippet.AddNode]

/-- Helper: `Class::Add` of a vector of lines preserves the one-deeper
invariant. -/
lemma classInv_AddLines (ls : List (List Char)) (c : Class)
    (a : AccessSpecifier) (h : c.childOneDeeper) :
    (c.AddLines ls a).childOneDeeper := by
  induction ls generalizing c with
  | nil => exact h
  | cons l rest ih => exact ih (c.AddLine l a) (classInv_AddLine c l a h)

/-- Helper: `Class::IncrementIndent` preserves the one-deeper invariant. -/
lemma classInv_IncrementIndent (c : Class) (k : Nat)
    (h : c.childOneDeeper) : (c.IncrementIndent k).childOneDeeper := by
  intro p hp s hs
  simp only [Class.IncrementIndent, List.mem_map] at hp
  obtain ⟨q, hq, rfl⟩ := hp
  simp only at hs
  rcases List.mem_map.mp hs with ⟨t, ht, rfl⟩
  have := h q hq t ht
  simp [Snippet.IncrementIndent, Class.IncrementIndent, this]
  omega

/-- Helper: every single `Class` operation preserves the one-deeper
invariant. -/
lemma classInv_applyOp (c : Class) (op : ClassOp)
    (h : c.childOneDeeper) : (c.applyOp op).childOneDeeper := by
  cases op with
  | addLine l a => exact classInv_AddLine c l a h
  | addLines ls a => exact classInv_AddLines ls c a h
  | addNodeText out a => exact classInv_AddNode c out a h
  | incr k => exact classInv_IncrementIndent c k h

/-- Helper: any sequence of `Class` operations preserves the one-deeper
invariant. -/
lemma classInv_applyOps (ops : List ClassOp) (c : Class)
    (h : c.childOneDeeper) : (c.applyOps ops).childOneDeeper := by
  induction ops generalizing c with
  | nil => exact h
  | cons op rest ih => exact ih (c.applyOp op) (classInv_applyOp c op h)


/-- Invariant of claim C9: the bucket map holds all three access-specifier
keys, so every `alookup` (the model of `.at`) succeeds. -/
def Class.keysComplete (c : Class) : Prop :=
  ∀ a : AccessSpecifier, (alookup c.snippets a).isSome

/-- Helper: the constructor installs all three keys. -/
lemma Class.keysComplete_make (name : List Char) (ind : Indent) :
    (Class.make name ind).keysComplete := by
  intro a
  cases a <;> rfl

/-- Helper: `Class::Add` of a line keeps all keys present. -/
lemma Class.keysComplete_AddLine (c : Class) (l : List Char)
    (a : AccessSpecifier) (h : c.keysComplete) :
    (c.AddLine l a).keysComplete := by
  intro a2
  have := h a2
  simp only [Class.AddLine]
  rw [alookup_aupdateAppend]
  by_cases h2 : a2 = a <;> simp [h2, this]

/-- Helper: `Class::Add` of a node keeps all keys present. -/
lemma Class.keysComplete_AddNode (c : Class) (out : List Char)
    (a : AccessSpecifier) (h : c.keysComplete) :
    (c.AddNode out a).keysComplete := by
  intro a2
  have := h a2
  simp only [Class.AddNode]
  rw [alookup_aupdateAppend]
  by_cases h2 : a2 = a <;> simp [h2, this]

/-- Helper: `Class::Add` of a vector of lines keeps all keys present. -/
lemma Class.keysComplete_AddLines (ls : List (List Char)) (c : Class)
    (a : AccessSpecifier) (h : c.keysComplete) :
    (c.AddLines ls a).keysComplete := by
  induction ls generalizing c with
  | nil => exact h
  | cons l rest ih => exact ih (c.AddLine l a) (Class.keysComplete_AddLine c l a h)

/-- Helper: `Class::IncrementIndent` keeps all keys present. -/
lemma Class.keysComplete_IncrementIndent (c : Class) (k : Nat)
    (h : c.keysComplete) : (c.IncrementIndent k).keysComplete := by
  intro a
  have := h a
  simp only [Class.IncrementIndent]
  rw [alookup_mapval]
  simpa using this

/-- Helper: every single `Class` operation keeps all keys present. -/
lemma Class.keysComplete_applyOp (c : Class) (op : ClassOp)
    (h : c.keysComplete) : (c.applyOp op).keysComplete := by
  cases op with
  | addLine l a => exact Class.keysComplete_AddLine c l a h
  | addLines ls a => exact Class.keysComplete_AddLines ls c a h
  | addNodeText out a => exact Class.keysComplete_AddNode c out a h
  | incr k => exact Class.keysComplete_IncrementIndent c k h

/-- Helper: any sequence of `Class` operations keeps all keys present. -/
lemma Class.keysComplete_applyOps (ops : List ClassOp) (c : Class)
    (h : c.keysComplete) : (c.applyOps ops).keysComplete := by
  induction ops generalizing c with
  | nil => exact h
  | cons op rest ih => exact ih (c.applyOp op) (Class.keysComplete_applyOp c op h)

/-- Helper: when all keys are present, `Class::Out` succeeds. -/
lemma Class.out_isSome_of_keysComplete (c : Class) (h : c.keysComplete) :
    c.Out.isSome := by
  obtain ⟨pub, hpub⟩ := Option.isSome_iff_exists.mp (h AccessSpecifier.kPublic)
  obtain ⟨prot, hprot⟩ := Option.isSome_iff_exists.mp (h AccessSpecifier.kProtected)
  obtain ⟨priv, hpriv⟩ := Option.isSome_iff_exists.mp (h AccessSpecifier.kPrivate)
  simp [Class.Out, hpub, hprot, hpriv]

/-- Claim C9: no operation of the core fails. In the embedding the `Indent`,
`Snippet` and `Block` operations are plain total functions by their types;
the only modelled failure point is the `.at` bucket lookup in
`Class::Out`. A `Class` holds all three access-specifier keys from
construction on, every operation keeps them, and therefore `Out` (the
render) is defined — returns `some` — after any sequence of operations,
including empty strings, empty vectors and zero indent levels. -/
theorem claim_C9_total (name : List Char) (ind : Indent) (ops : List ClassOp) :
    (Class.applyOps (Class.make name ind) ops).keysComplete
    ∧ ((Class.applyOps (Class.make name ind) ops).Out).isSome := by
  have h := Class.keysComplete_applyOps ops (Class.make name ind)
    (Class.keysComplete_make name ind)
  exact ⟨h, Class.out_isSome_of_keysComplete _ h⟩

/-- Claim C1: each `Add` on a `Block` or a `Class` creates its wrapping
child snippet at the parent's current indent level plus one;
`IncrementIndent(k)` adds `k` to the parent's own level and to every child
snippet's level; consequently, for a node freshly built by any constructor,
every child snippet stays exactly one level deeper than the parent after an
arbitrary sequence of `Add` and `IncrementIndent` operations. -/
theorem claim_C1_child_indent (b : Block) (c : Class) (l out : List Char)
    (a : AccessSpecifier) (k : Nat) (nm decl : List Char) (ind : Indent)
    (ops : List BlockOp) (cops : List ClassOp) :
    (b.AddLine l).snippets
      = b.snippets ++ [(Snippet.mkLine ⟨b.indent.level + 1, b.indent.size, ' '⟩).AddLine l]
    ∧ (b.AddNode out).snippets
      = b.snippets ++ [(Snippet.mkLine ⟨b.indent.level + 1, b.indent.size, ' '⟩).AddNode out]
    ∧ alookup (c.AddLine l a).snippets a
        = some ((alookup c.snippets a).getD []
            ++ [(Snippet.mkLine ⟨c.indent.level + 1, c.indent.size, ' '⟩).AddLine l])
    ∧ (b.IncrementIndent k).indent.level = b.indent.level + k
    ∧ (b.IncrementIndent k).snippets.map (fun s => s.indent.level)
        = b.snippets.map (fun s => s.indent.level + k)
    ∧ (c.IncrementIndent k).indent.level = c.indent.level + k
    ∧ (c.IncrementIndent k).snippets.map (fun p => p.2.map (fun s => s.indent.level))
        = c.snippets.map (fun p => p.2.map (fun s => s.indent.level + k))
    ∧ Block.childOneDeeper (Block.applyOps (Block.mkCodeBlock ind) ops)
    ∧ Block.childOneDeeper (Block.applyOps (Block.mkDefinition decl ind) ops)
    ∧ Block.childOneDeeper (Block.applyOps (Block.mkNamespace nm ind) ops)
    ∧ Class.childOneDeeper (Class.applyOps (Class.make nm ind) cops) := by
  refine ⟨rfl, rfl, ?_, rfl, ?_, rfl, ?_, ?_, ?_, ?_, ?_⟩
  · simp only [Class.AddLine]
    rw [alookup_aupdateAppend]
    simp
  · simp [Block.IncrementIndent, Snippet.IncrementIndent, Function.comp]
  · simp [Class.IncrementIndent, Snippet.IncrementIndent, List.map_map, Function.comp]
  · exact blockInv_applyOps ops _ (by intro s hs; simp [Block.mkCodeBlock] at hs)
  · exact blockInv_applyOps ops _ (by intro s hs; simp [Block.mkDefinition] at hs)
  · exact blockInv_applyOps ops _ (by intro s hs; simp [Block.mkNamespace] at hs)
  · refine classInv_applyOps cops _ ?_
    intro p hp s hs
    simp [Class.make] at hp
    rcases hp with rfl | rfl | rfl <;> simp at hs


/-- Helper: appends into two distinct buckets commute when both keys are
present in the map. -/
lemma aupdateAppend_comm (m : Buckets) (x y : AccessSpecifier) (sx sy : Snippet)
    (hxy : x ≠ y) (hx : (alookup m x).isSome) (hy : (alookup m y).isSome) :
    aupdateAppend (aupdateAppend m x sx) y sy
      = aupdateAppend (aupdateAppend m y sy) x sx := by
  induction m with
  | nil => simp [alookup] at hx
  | cons p rest ih =>
    obtain ⟨pk, pv⟩ := p
    by_cases h1 : pk = x
    · subst h1
      simp [aupdateAppend, hxy, Ne.symm hxy]
    · by_cases h2 : pk = y
      · subst h2
        simp [aupdateAppend, hxy, Ne.symm hxy, h1]
      · have hx2 : (alookup rest x).isSome := by simpa [alookup, h1] using hx
        have hy2 : (alookup rest y).isSome := by simpa [alookup, h2] using hy
        simp [aupdateAppend, h1, h2, ih hx2 hy2]

/-- Claim C3: `Class::Out` renders the indent prefix plus
`"class " + name + header`, then the three buckets always in the fixed
order public, protected, private — each bucket's label line
`Indenting() + " <label>:\n"` emitted exactly when the bucket is
non-empty, followed by that bucket's snippets' renders in append order —
and finally the indent prefix plus the footer. The order is independent of
the append order across buckets (appends into distinct buckets commute),
and a class with only private members renders exactly the one label line
`" private:\n"`. -/
theorem claim_C3_class_render (c d : Class) (pub prot priv dpriv : List Snippet)
    (hpub : alookup c.snippets AccessSpecifier.kPublic = some pub)
    (hprot : alookup c.snippets AccessSpecifier.kProtected = some prot)
    (hpriv : alookup c.snippets AccessSpecifier.kPrivate = some priv)
    (la lb : List Char) (x y : AccessSpecifier) (hxy : x ≠ y)
    (hx : (alookup c.snippets x).isSome) (hy : (alookup c.snippets y).isSome)
    (hdpub : alookup d.snippets AccessSpecifier.kPublic = some [])
    (hdprot : alookup d.snippets AccessSpecifier.kProtected = some [])
    (hdpriv : alookup d.snippets AccessSpecifier.kPrivate = some dpriv)
    (hdp : dpriv ≠ []) :
    c.Out = some (c.indent.Indenting ++ str ("class ") ++ c.name ++ c.header
      ++ (if pub = [] then []
          else c.indent.Indenting ++ str (" public:\n") ++ (pub.map Snippet.Out).flatten)
      ++ (if prot = [] then []
          else c.indent.Indenting ++ str (" protected:\n") ++ (prot.map Snippet.Out).flatten)
      ++ (if priv = [] then []
          else c.indent.Indenting ++ str (" private:\n") ++ (priv.map Snippet.Out).flatten)
      ++ c.indent.Indenting ++ c.footer)
    ∧ (c.AddLine la x).AddLine lb y = (c.AddLine lb y).AddLine la x
    ∧ d.Out = some (d.indent.Indenting ++ str ("class ") ++ d.name ++ d.header
      ++ (d.indent.Indenting ++ str (" private:\n") ++ (dpriv.map Snippet.Out).flatten)
      ++ d.indent.Indenting ++ d.footer) := by
  refine ⟨?_, ?_, ?_⟩
  · simp [Class.Out, hpub, hprot, hpriv]
  · simp only [Class.AddLine]
    rw [aupdateAppend_comm c.snippets x y _ _ hxy hx hy]
  · simp [Class.Out, hdpub, hdprot, hdpriv, hdp, List.append_assoc]

/-- Witness for C3: a class with one public member (appending into public
and then private in either order gives the same state) and a class with a
single private member. -/
theorem claim_C3_witness :
    ((Class.make (str ("W")) ⟨0, 2, ' '⟩).AddLine (str ("a"))
        AccessSpecifier.kPublic).Out
      = some (((Class.make (str ("W")) ⟨0, 2, ' '⟩).AddLine (str ("a"))
            AccessSpecifier.kPublic).indent.Indenting
          ++ str ("class ")
          ++ ((Class.make (str ("W")) ⟨0, 2, ' '⟩).AddLine (str ("a"))
              AccessSpecifier.kPublic).name
          ++ ((Class.make (str ("W")) ⟨0, 2, ' '⟩).AddLine (str ("a"))
              AccessSpecifier.kPublic).header
          ++ (if [(Snippet.mkLine ⟨1, 2, ' '⟩).AddLine (str ("a"))]
                = ([] : List Snippet) then []
              else ((Class.make (str ("W")) ⟨0, 2, ' '⟩).AddLine (str ("a"))
                  AccessSpecifier.kPublic).indent.Indenting
                ++ str (" public:\n")
                ++ (([(Snippet.mkLine ⟨1, 2, ' '⟩).AddLine (str ("a"))].map
                    Snippet.Out).flatten))
          ++ (if ([] : List Snippet) = [] then []
              else ((Class.make (str ("W")) ⟨0, 2, ' '⟩).AddLine (str ("a"))
                  AccessSpecifier.kPublic).indent.Indenting
                ++ str (" protected:\n") ++ (([] : List Snippet).map Snippet.Out).flatten)
          ++ (if ([] : List Snippet) = [] then []
              else ((Class.make (str ("W")) ⟨0, 2, ' '⟩).AddLine (str ("a"))
                  AccessSpecifier.kPublic).indent.Indenting
                ++ str (" private:\n") ++ (([] : List Snippet).map Snippet.Out).flatten)
          ++ ((Class.make (str ("W")) ⟨0, 2, ' '⟩).AddLine (str ("a"))
              AccessSpecifier.kPublic).indent.Indenting
          ++ ((Class.make (str ("W")) ⟨0, 2, ' '⟩).AddLine (str ("a"))
              AccessSpecifier.kPublic).footer)
    ∧ (((Class.make (str ("W")) ⟨0, 2, ' '⟩).AddLine (str ("a"))
          AccessSpecifier.kPublic).AddLine (str ("b")) AccessSpecifier.kPrivate).AddLine
        (str ("c")) AccessSpecifier.kProtected
      = (((Class.make (str ("W")) ⟨0, 2, ' '⟩).AddLine (str ("a"))
          AccessSpecifier.kPublic).AddLine (str ("c")) AccessSpecifier.kProtected).AddLine
        (str ("b")) AccessSpecifier.kPrivate
    ∧ ((Class.make (str ("D")) ⟨0, 2, ' '⟩).AddLine (str ("int y;"))
        AccessSpecifier.kPrivate).Out
      = some (((Class.make (str ("D")) ⟨0, 2, ' '⟩).AddLine (str ("int y;"))
            AccessSpecifier.kPrivate).indent.Indenting
          ++ str ("class ")
          ++ ((Class.make (str ("D")) ⟨0, 2, ' '⟩).AddLine (str ("int y;"))
              AccessSpecifier.kPrivate).name
          ++ ((Class.make (str ("D")) ⟨0, 2, ' '⟩).AddLine (str ("int y;"))
              AccessSpecifier.kPrivate).header
          ++ (((Class.make (str ("D")) ⟨0, 2, ' '⟩).AddLine (str ("int y;"))
              AccessSpecifier.kPrivate).indent.Indenting
            ++ str (" private:\n")
            ++ (([(Snippet.mkLine ⟨1, 2, ' '⟩).AddLine (str ("int y;"))].map
                Snippet.Out).flatten))
          ++ ((Class.make (str ("D")) ⟨0, 2, ' '⟩).AddLine (str ("int y;"))
              AccessSpecifier.kPrivate).indent.Indenting
          ++ ((Class.make (str ("D")) ⟨0, 2, ' '⟩).AddLine (str ("int y;"))
              AccessSpecifier.kPrivate).footer) :=
  claim_C3_class_render
    ((Class.make (str ("W")) ⟨0, 2, ' '⟩).AddLine (str ("a")) AccessSpecifier.kPublic)
    ((Class.make (str ("D")) ⟨0, 2, ' '⟩).AddLine (str ("int y;"))
      AccessSpecifier.kPrivate)
    [(Snippet.mkLine ⟨1, 2, ' '⟩).AddLine (str ("a"))] [] []
    [(Snippet.mkLine ⟨1, 2, ' '⟩).AddLine (str ("int y;"))]
    (by decide) (by decide) (by decide)
    (str ("b")) (str ("c")) AccessSpecifier.kPrivate AccessSpecifier.kProtected
    (by decide) (by decide) (by decide)
    (by decide) (by decide) (by decide) (by decide)


/-- Claim C2: the round trip. A namespace block named `N` at level 0 with
the default indent, absorbing a class named `X` at level 0 that holds one
public line `L`, renders to exactly `"namespace N \x7b\n"`, then the four
absorbed lines `"class X \x7b"`, `" public:"`, `"  " + L`, `"\x7d;"`, each
prefixed with one level of child indent (two spaces) and terminated by a
newline, then `"\x7d\n"` (here `\x7b`/`\x7d` denote the braces). `X` and
`L` are assumed newline-free, as required for well-formed single lines. -/
theorem claim_C2_roundtrip (N X L : List Char) (hX : '\n' ∉ X) (hL : '\n' ∉ L) :
    (Block.AddAny (Block.mkNamespace N ⟨0, kDefaultIndentSize, ' '⟩)
        (Node.cls ((Class.make X ⟨0, kDefaultIndentSize, ' '⟩).AddLine L
          AccessSpecifier.kPublic))).map Block.Out
      = some (str ("namespace ") ++ N ++ str (" \x7b\n")
          ++ (str ("  ") ++ (str ("class ") ++ X ++ str (" \x7b")) ++ str ("\n"))
          ++ (str ("  ") ++ str (" public:") ++ str ("\n"))
          ++ (str ("  ") ++ (str ("  ") ++ L) ++ str ("\n"))
          ++ (str ("  ") ++ str ("\x7d;") ++ str ("\n"))
          ++ str ("\x7d\n")) := by
  have hind0 : Indent.Indenting ⟨0, kDefaultIndentSize, ' '⟩ = [] := rfl
  have hind1 : Indent.Indenting ⟨1, kDefaultIndentSize, ' '⟩ = str ("  ") := rfl
  have e1 : str (" \x7b\n") = str (" \x7b") ++ ['\n'] := rfl
  have e2 : str (" public:\n") = str (" public:") ++ ['\n'] := rfl
  have e3 : str ("\n") = ['\n'] := rfl
  have e4 : str ("\x7d;\n") = str ("\x7d;") ++ ['\n'] := rfl
  have h1 : '\n' ∉ str ("class ") ++ (X ++ str (" \x7b")) := by
    intro hm
    rcases List.mem_append.mp hm with hm1 | hm1
    · exact absurd hm1 (by decide)
    · rcases List.mem_append.mp hm1 with hm2 | hm2
      · exact hX hm2
      · exact absurd hm2 (by decide)
  have h2 : '\n' ∉ str (" public:") := by decide
  have h3 : '\n' ∉ str ("  ") ++ L := by
    intro hm
    rcases List.mem_append.mp hm with hm1 | hm1
    · exact absurd hm1 (by decide)
    · exact hL hm1
  have h4 : '\n' ∉ str ("\x7d;") := by decide
  have hall : ∀ l ∈ [str ("class ") ++ (X ++ str (" \x7b")), str (" public:"),
      str ("  ") ++ L, str ("\x7d;")], '\n' ∉ l := by
    intro l hl
    simp only [List.mem_cons, List.not_mem_nil, or_false] at hl
    rcases hl with rfl | rfl | rfl | rfl
    · exact h1
    · exact h2
    · exact h3
    · exact h4
  have hsplit := splitLines_joinLines _ hall
  have hcls : ((Class.make X ⟨0, kDefaultIndentSize, ' '⟩).AddLine L
      AccessSpecifier.kPublic).Out
      = some (joinLines [str ("class ") ++ (X ++ str (" \x7b")), str (" public:"),
          str ("  ") ++ L, str ("\x7d;")]) := by
    simp [Class.make, Class.AddLine, aupdateAppend, Class.Out, alookup, joinLines,
      Snippet.mkLine, Snippet.AddLine, Snippet.Out, hind0, hind1, e1, e2, e3, e4,
      List.append_assoc]
  have hnode : Node.Out (Node.cls ((Class.make X ⟨0, kDefaultIndentSize, ' '⟩).AddLine L
      AccessSpecifier.kPublic)) = some (joinLines [str ("class ") ++ (X ++ str (" \x7b")),
        str (" public:"), str ("  ") ++ L, str ("\x7d;")]) := hcls
  rw [Block.AddAny, hnode]
  simp only [Option.map_some']
  simp [Block.AddNode, Block.Out, Block.mkNamespace, Snippet.AddNode, Snippet.mkLine,
    Snippet.Out, hsplit, hind0, hind1, e3, List.append_assoc]

/-- Witness for C2 at `N = "N"`, `X = "X"`, `L = "x;"`. -/
theorem claim_C2_witness :
    (Block.AddAny (Block.mkNamespace (str ("N")) ⟨0, kDefaultIndentSize, ' '⟩)
        (Node.cls ((Class.make (str ("X")) ⟨0, kDefaultIndentSize, ' '⟩).AddLine
          (str ("x;")) AccessSpecifier.kPublic))).map Block.Out
      = some (str ("namespace ") ++ str ("N") ++ str (" \x7b\n")
          ++ (str ("  ") ++ (str ("class ") ++ str ("X") ++ str (" \x7b")) ++ str ("\n"))
          ++ (str ("  ") ++ str (" public:") ++ str ("\n"))
          ++ (str ("  ") ++ (str ("  ") ++ str ("x;")) ++ str ("\n"))
          ++ (str ("  ") ++ str ("\x7d;") ++ str ("\n"))
          ++ str ("\x7d\n")) :=
  claim_C2_roundtrip (str ("N")) (str ("X")) (str ("x;")) (by decide) (by decide)

end cppcodegen
